import Mathlib

/-!
Shallow embedding of `src/uc/uc_lexer.py`, a PLY (`ply.lex`) based lexer for
the uC language, together with the PLY matching engine semantics that the
module relies on.

PLY builds one master regular expression from the rule table:
* function rules first, in source-definition order
  (`t_STRING_LITERAL`, `t_ID`, `t_NEWLINE`, `t_comment`,
  `t_unterminated_string`, `t_unterminated_comment`),
* then string rules, sorted by decreasing length of their regex text
  (ties keep the alphabetical attribute order produced by `dir()`; all
  equal-length literal patterns here start with distinct characters, so the
  tie order is observationally irrelevant).
Python's `re` alternation is first-match (leftmost alternative), so the rule
selected at a cursor is the first rule in that order whose pattern matches.

Each rule's regular expression is embedded as a matcher
`List Char → Option Nat` returning the number of characters the Python
backtracking engine would consume at the start of the given suffix, `none`
when the pattern does not match there.  Greedy/lazy repetition and
alternative order are reproduced faithfully; where a greedy scan is used
without explicit backtracking, the surrounding pattern makes backtracking
unable to change the outcome (noted at each spot).

Python's `\w` (identifier characters) is modelled by its ASCII subset
`[A-Za-z0-9_]`; the source compiles patterns on `str` where `\w` would also
accept non-ASCII word characters, which no claim exercises.
-/

namespace UCLexer

/-- First-success alternation, the order Python's `re` tries alternatives. -/
def alt2 (a b : Option Nat) : Option Nat :=
  match a with
  | some n => some n
  | none => b

/-- ASCII subset of Python's `\w`: letters, digits and underscore. -/
def isWordChar (c : Char) : Bool :=
  c.isAlpha || c.isDigit || c = '_'

/-- Greedy `(\d|_\d)*`: maximal run of digits and underscore-digit pairs.
No pattern continues after this star with a digit or an underscore, so the
greedy maximal scan coincides with the backtracking result. -/
def intTail : List Char → Nat
  | c :: rest =>
    if c.isDigit then 1 + intTail rest
    else if c = '_' then
      match rest with
      | d :: rest2 => if d.isDigit then 2 + intTail rest2 else 0
      | [] => 0
    else 0
  | [] => 0

/-- `t_INT_CONST = r"\d(\d|_\d)*"` (line 165). -/
def intMatch : List Char → Option Nat
  | c :: rest => if c.isDigit then some (1 + intTail rest) else none
  | [] => none

/-- Greedy `\w*`: maximal run of word characters. -/
def wordTail : List Char → Nat
  | c :: rest => if isWordChar c then 1 + wordTail rest else 0
  | [] => 0

/-- `t_ID`'s pattern `[^\d\W]\w*` (line 188): a word character that is not a
digit, then any word characters. -/
def idMatch : List Char → Option Nat
  | c :: rest => if isWordChar c && !c.isDigit then some (1 + wordTail rest) else none
  | [] => none

/-- Greedy run of newlines, after the first one of `\n+`. -/
def nlRun : List Char → Nat
  | c :: rest => if c = '\n' then 1 + nlRun rest else 0
  | [] => 0

/-- `t_NEWLINE`'s pattern `\n+` (line 193). -/
def nlMatch : List Char → Option Nat
  | c :: rest => if c = '\n' then some (1 + nlRun rest) else none
  | [] => none

/-- Tail of `t_STRING_LITERAL`'s pattern `\"(\\.|.|\n)*?\"` after the opening
quote: lazy repetition, so the closing quote is tried before each body item;
body alternatives in pattern order are `\\.` (backslash and any non-newline
character), `.`, `\n`, with full backtracking between them. -/
def strTail : List Char → Option Nat
  | [] => none
  | [c] => if c = '"' then some 1 else none
  | c :: c2 :: rest2 =>
    if c = '"' then some 1
    else if c = '\\' then
      if c2 = '\n' then (strTail (c2 :: rest2)).map (· + 1)
      else alt2 ((strTail rest2).map (· + 2)) ((strTail (c2 :: rest2)).map (· + 1))
    else (strTail (c2 :: rest2)).map (· + 1)

/-- `t_STRING_LITERAL`'s pattern `\"(\\.|.|\n)*?\"` (line 183). -/
def strMatch : List Char → Option Nat
  | c :: rest => if c = '"' then (strTail rest).map (· + 1) else none
  | [] => none

/-- A complete string-literal body: a character sequence the lazy loop of
`t_STRING_LITERAL` consumes without reaching a closing position, so that a
quote placed right after it is the literal's first unescaped closing quote.
Quotes inside must be escaped, a backslash escapes any following
non-newline character, and a trailing lone backslash is excluded (it would
escape the closing quote itself).  The case structure mirrors `strTail`. -/
def strBody : List Char → Bool
  | [] => true
  | [c] => !(c = '"') && !(c = '\\')
  | c :: c2 :: rest2 =>
    if c = '"' then false
    else if c = '\\' then
      if c2 = '\n' then strBody (c2 :: rest2) else strBody rest2
    else strBody (c2 :: rest2)

/-- Tail of `t_CHAR_CONST`'s pattern after at least one body item: lazy, so
the closing quote is tried first; body alternatives `\\.` then `.`, neither
of which crosses a newline. -/
def charTail : List Char → Option Nat
  | [] => none
  | [c] => if c = '\'' then some 1 else none
  | c :: c2 :: rest2 =>
    if c = '\'' then some 1
    else if c = '\\' then
      if c2 = '\n' then (charTail (c2 :: rest2)).map (· + 1)
      else alt2 ((charTail rest2).map (· + 2)) ((charTail (c2 :: rest2)).map (· + 1))
    else if c = '\n' then none
    else (charTail (c2 :: rest2)).map (· + 1)

/-- First, mandatory body item of `(\\.|.)+?`: same alternatives as
`charTail` but the closing quote is not yet allowed. -/
def charBody : List Char → Option Nat
  | [] => none
  | c :: rest =>
    if c = '\\' then
      match rest with
      | c2 :: rest2 =>
        if c2 = '\n' then (charTail rest).map (· + 1)
        else alt2 ((charTail rest2).map (· + 2)) ((charTail rest).map (· + 1))
      | [] => none
    else if c = '\n' then none
    else (charTail rest).map (· + 1)

/-- `t_CHAR_CONST = r"\'(\\.|.)+?\'"` (line 166). -/
def charMatch : List Char → Option Nat
  | c :: rest => if c = '\'' then (charBody rest).map (· + 1) else none
  | [] => none

/-- Lazy `(.|\n)*?\*/` of a block comment: stop at the first `*/`. -/
def commentClose : List Char → Option Nat
  | c :: rest =>
    if c = '*' then
      match rest with
      | c2 :: _ => if c2 = '/' then some 2 else (commentClose rest).map (· + 1)
      | [] => none
    else (commentClose rest).map (· + 1)
  | [] => none

/-- Greedy `.*` of a line comment: everything up to a newline or the end. -/
def dotRun : List Char → Nat
  | c :: rest => if c = '\n' then 0 else 1 + dotRun rest
  | [] => 0

/-- `t_comment`'s pattern `(/\*(.|\n)*?\*/)|(//.*)` (line 197). -/
def commentMatch : List Char → Option Nat
  | c :: rest =>
    if c = '/' then
      match rest with
      | c2 :: rest2 =>
        alt2 (if c2 = '*' then (commentClose rest2).map (· + 2) else none)
          (if c2 = '/' then some (2 + dotRun rest2) else none)
      | [] => none
    else none
  | [] => none

/-- `t_unterminated_string`'s pattern `\"(\\.|.|\n)*` (line 203): after the
quote the greedy body consumes every remaining character. -/
def untermStrMatch : List Char → Option Nat
  | c :: rest => if c = '"' then some (1 + rest.length) else none
  | [] => none

/-- `t_unterminated_comment`'s pattern `/\*(.|\n)*` (line 208): after `/*`
the greedy body consumes every remaining character. -/
def untermComMatch : List Char → Option Nat
  | c :: rest =>
    if c = '/' then
      match rest with
      | c2 :: rest2 => if c2 = '*' then some (2 + rest2.length) else none
      | [] => none
    else none
  | [] => none

/-- Greedy `(\d(\d|_\d)*)?`. -/
def digitsOpt : List Char → Nat
  | c :: rest => if c.isDigit then 1 + intTail rest else 0
  | [] => 0

/-- First alternative of `t_FLOAT_CONST` (lines 168-180):
`\d(\d|_\d)*\.(\d(\d|_\d)*)?` — "numbers like 123.".  The digit run is
greedy; backtracking cannot expose a dot because each surrendered unit ends
at a digit or an underscore. -/
def floatA : List Char → Option Nat
  | c :: rest =>
    if c.isDigit then
      match rest.drop (intTail rest) with
      | d :: rest2 => if d = '.' then some (1 + intTail rest + 1 + digitsOpt rest2) else none
      | [] => none
    else none
  | [] => none

/-- Second alternative of `t_FLOAT_CONST`: `(\d(\d|_\d)*)?\.\d(\d|_\d)*` —
"and .456".  The optional leading digit run is tried first; dropping it can
only succeed when the suffix starts with the dot itself. -/
def floatB : List Char → Option Nat
  | c :: rest =>
    if c = '.' then
      match rest with
      | d :: rest2 => if d.isDigit then some (2 + intTail rest2) else none
      | [] => none
    else if c.isDigit then
      match rest.drop (intTail rest) with
      | d :: rest2 =>
        if d = '.' then
          match rest2 with
          | d2 :: rest3 => if d2.isDigit then some (1 + intTail rest + 2 + intTail rest3) else none
          | [] => none
        else none
      | [] => none
    else none
  | [] => none

/-- Exponent `(E|e)(\+|-)?\d(\d|_\d)*`: the optional sign is tried first;
without it the digit must follow the `e` directly. -/
def expMatch : List Char → Option Nat
  | c :: rest =>
    if c = 'E' ∨ c = 'e' then
      match rest with
      | s1 :: rest2 =>
        if s1 = '+' ∨ s1 = '-' then
          match rest2 with
          | d :: rest3 => if d.isDigit then some (3 + intTail rest3) else none
          | [] => none
        else if s1.isDigit then some (2 + intTail rest2) else none
      | [] => none
    else none
  | [] => none

/-- Regex alternation binds weakest, so in the source pattern
`( A )|( B )( EXP )?` the optional exponent belongs to the `B` alternative
only.  When `B` has matched, the optional exponent extends it if it can. -/
def floatBexp (s : List Char) : Option Nat :=
  match floatB s with
  | some n => some (n + ((expMatch (s.drop n)).getD 0))
  | none => none

/-- One `(\d|_\d)` unit. -/
def unitMatch : List Char → Option Nat
  | c :: rest =>
    if c.isDigit then some 1
    else if c = '_' then
      match rest with
      | d :: _ => if d.isDigit then some 2 else none
      | [] => none
    else none
  | [] => none

/-- Third alternative of `t_FLOAT_CONST`:
`\d(\d|_\d)(E|e)(\+|-)?\d(\d|_\d)` — note the absence of `*` on the two
`(\d|_\d)` units: exactly one unit on each side is required. -/
def floatC : List Char → Option Nat
  | c :: rest =>
    if c.isDigit then
      match unitMatch rest with
      | some u1 =>
        match rest.drop u1 with
        | e :: rest2 =>
          if e = 'E' ∨ e = 'e' then
            match rest2 with
            | s1 :: rest3 =>
              if s1 = '+' ∨ s1 = '-' then
                match rest3 with
                | d :: rest4 =>
                  if d.isDigit then (unitMatch rest4).map (fun u2 => 5 + u1 + u2) else none
                | [] => none
              else if s1.isDigit then (unitMatch rest3).map (fun u2 => 4 + u1 + u2) else none
            | [] => none
          else none
        | [] => none
      | none => none
    else none
  | [] => none

/-- `t_FLOAT_CONST` (lines 167-180): the three top-level alternatives in
pattern order. -/
def floatMatch (s : List Char) : Option Nat :=
  alt2 (floatA s) (alt2 (floatBexp s) (floatC s))

/-- One rule of the PLY master regular expression.  Constructor names follow
the `t_`-rule names of the source. -/
inductive RuleId where
  | STRING_LITERAL
  | ID
  | NEWLINE
  | comment
  | unterminated_string
  | unterminated_comment
  | FLOAT_CONST
  | CHAR_CONST
  | INT_CONST
  | OR
  | AND
  | EQ
  | GE
  | LBRACE
  | LBRACKET
  | LE
  | LPAREN
  | NE
  | PLUS
  | RBRACE
  | RBRACKET
  | RPAREN
  | TIMES
  | ADDRESS
  | COMMA
  | DIVIDE
  | EQUALS
  | GT
  | LT
  | MINUS
  | MOD
  | NOT
  | SEMI
deriving DecidableEq, Repr

/-- Exact-text match of a literal (string-rule) pattern. -/
def litMatch (lit s : List Char) : Option Nat :=
  if lit.isPrefixOf s then some lit.length else none

/-- The characters a rule's pattern consumes at the start of `s`, `none`
when it does not match there. -/
def ruleAt : RuleId → List Char → Option Nat
  | .STRING_LITERAL, s => strMatch s
  | .ID, s => idMatch s
  | .NEWLINE, s => nlMatch s
  | .comment, s => commentMatch s
  | .unterminated_string, s => untermStrMatch s
  | .unterminated_comment, s => untermComMatch s
  | .FLOAT_CONST, s => floatMatch s
  | .CHAR_CONST, s => charMatch s
  | .INT_CONST, s => intMatch s
  | .OR, s => litMatch ['|', '|'] s
  | .AND, s => litMatch ['&', '&'] s
  | .EQ, s => litMatch ['=', '='] s
  | .GE, s => litMatch ['>', '='] s
  | .LBRACE, s => litMatch ['\x7b'] s
  | .LBRACKET, s => litMatch ['['] s
  | .LE, s => litMatch ['<', '='] s
  | .LPAREN, s => litMatch ['('] s
  | .NE, s => litMatch ['!', '='] s
  | .PLUS, s => litMatch ['+'] s
  | .RBRACE, s => litMatch ['\x7d'] s
  | .RBRACKET, s => litMatch [']'] s
  | .RPAREN, s => litMatch [')'] s
  | .TIMES, s => litMatch ['*'] s
  | .ADDRESS, s => litMatch ['&'] s
  | .COMMA, s => litMatch [','] s
  | .DIVIDE, s => litMatch ['/'] s
  | .EQUALS, s => litMatch ['='] s
  | .GT, s => litMatch ['>'] s
  | .LT, s => litMatch ['<'] s
  | .MINUS, s => litMatch ['-'] s
  | .MOD, s => litMatch ['%'] s
  | .NOT, s => litMatch ['!'] s
  | .SEMI, s => litMatch [';'] s

/-- PLY master-regex rule order: the six function rules in their
source-definition order, then the string rules by decreasing length of the
regex text (`t_FLOAT_CONST` 400+ chars, `t_CHAR_CONST` 13, `t_INT_CONST` 11,
`t_OR` 4, the two-character patterns, the one-character patterns;
equal-length groups alphabetically as produced by `dir()`). -/
def masterOrder : List RuleId :=
  [.STRING_LITERAL, .ID, .NEWLINE, .comment, .unterminated_string, .unterminated_comment,
   .FLOAT_CONST, .CHAR_CONST, .INT_CONST,
   .OR,
   .AND, .EQ, .GE, .LBRACE, .LBRACKET, .LE, .LPAREN, .NE, .PLUS, .RBRACE, .RBRACKET,
   .RPAREN, .TIMES,
   .ADDRESS, .COMMA, .DIVIDE, .EQUALS, .GT, .LT, .MINUS, .MOD, .NOT, .SEMI]

/-- First rule in the given order whose pattern matches: Python alternation
semantics on the PLY master regular expression. -/
def firstMatch : List RuleId → List Char → Option (RuleId × Nat)
  | [], _ => none
  | r :: rs, s =>
    match ruleAt r s with
    | some n => some (r, n)
    | none => firstMatch rs s

/-- The PLY token-type string of each rule. -/
def ruleName : RuleId → String
  | .STRING_LITERAL => "STRING_LITERAL"
  | .ID => "ID"
  | .NEWLINE => "NEWLINE"
  | .comment => "comment"
  | .unterminated_string => "unterminated_string"
  | .unterminated_comment => "unterminated_comment"
  | .FLOAT_CONST => "FLOAT_CONST"
  | .CHAR_CONST => "CHAR_CONST"
  | .INT_CONST => "INT_CONST"
  | .OR => "OR"
  | .AND => "AND"
  | .EQ => "EQ"
  | .GE => "GE"
  | .LBRACE => "LBRACE"
  | .LBRACKET => "LBRACKET"
  | .LE => "LE"
  | .LPAREN => "LPAREN"
  | .NE => "NE"
  | .PLUS => "PLUS"
  | .RBRACE => "RBRACE"
  | .RBRACKET => "RBRACKET"
  | .RPAREN => "RPAREN"
  | .TIMES => "TIMES"
  | .ADDRESS => "ADDRESS"
  | .COMMA => "COMMA"
  | .DIVIDE => "DIVIDE"
  | .EQUALS => "EQUALS"
  | .GT => "GT"
  | .LT => "LT"
  | .MINUS => "MINUS"
  | .MOD => "MOD"
  | .NOT => "NOT"
  | .SEMI => "SEMI"

/-- The reserved words of the source (`UCLexer.keywords`, lines 63-80). -/
def keywords : List String :=
  ["ASSERT", "BOOL", "BREAK", "CHAR", "ELSE", "FALSE", "FLOAT", "FOR",
   "IF", "INT", "PRINT", "READ", "RETURN", "TRUE", "VOID", "WHILE"]

/-- `keyword_map` (lines 82-84): lowercase spelling to token type, one
entry per keyword, `keyword.lower()` written out literally. -/
def keyword_map : List (List Char × String) :=
  [("assert".toList, "ASSERT"), ("bool".toList, "BOOL"), ("break".toList, "BREAK"),
   ("char".toList, "CHAR"), ("else".toList, "ELSE"), ("false".toList, "FALSE"),
   ("float".toList, "FLOAT"), ("for".toList, "FOR"), ("if".toList, "IF"),
   ("int".toList, "INT"), ("print".toList, "PRINT"), ("read".toList, "READ"),
   ("return".toList, "RETURN"), ("true".toList, "TRUE"), ("void".toList, "VOID"),
   ("while".toList, "WHILE")]

/-- `self.keyword_map.get(t.value, "ID")` of `t_ID` (line 189). -/
def keywordLookup (w : List Char) : String :=
  (List.lookup w keyword_map).getD "ID"

/-- The PLY lexer state the source manipulates: `lexdata`, `lexpos`,
`lineno`. -/
structure LexState where
  data : List Char
  pos : Nat
  lineno : Nat
deriving DecidableEq, Repr

/-- A produced token: PLY type string, `t.value`, `t.lineno`, `t.lexpos`. -/
structure Token where
  type : String
  value : List Char
  lineno : Nat
  lexpos : Nat
deriving DecidableEq, Repr

/-- One observable output of the scan: a returned token or an error-callback
invocation `(message, line, column)`. -/
inductive Event where
  | tok (t : Token)
  | err (msg : String) (line : Nat) (col : Nat)
deriving DecidableEq, Repr

/-- Index of the last newline in the list, if any. -/
def rfindNL : List Char → Option Nat
  | [] => none
  | c :: rest =>
    match rfindNL rest with
    | some i => some (i + 1)
    | none => if c = '\n' then some 0 else none

/-- `find_tok_column` (lines 48-51): `lexpos - lexdata.rfind("\n", 0,
lexpos)`, where a missing newline counts as index `-1`. -/
def findCol (data : List Char) (pos : Nat) : Nat :=
  match rfindNL (data.take pos) with
  | some i => pos - i
  | none => pos + 1

/-- Hexadecimal digit as Python prints it (lowercase). -/
def hexDigit (n : Nat) : Char :=
  if n < 10 then Char.ofNat (48 + n) else Char.ofNat (87 + n)

/-- Python's `repr` of a one-character string, used by `t_error`
(line 213).  Non-ASCII printability is approximated by printing the
character as-is; every character the claims exercise is ASCII. -/
def pyRepr (c : Char) : String :=
  if c = '\'' then "\"'\""
  else if c = '\\' then "'\\\\'"
  else if c = '\n' then "'\\n'"
  else if c = '\r' then "'\\r'"
  else if c = '\t' then "'\\t'"
  else if c.toNat < 32 || c.toNat == 127 then
    String.mk ['\'', '\\', 'x', hexDigit (c.toNat / 16), hexDigit (c.toNat % 16), '\'']
  else String.mk ['\'', c, '\'']

/-- Newlines contained in a matched span (`t.value.count("\n")`). -/
def countNL : List Char → Nat
  | [] => 0
  | c :: rest => (if c = '\n' then 1 else 0) + countNL rest

/-- Outcome of one iteration of the PLY `token()` loop body. -/
inductive StepOut where
  | eof
  | cont (st : LexState) (ev : Option Event)
deriving DecidableEq, Repr

/-- Effect of the selected rule, as PLY executes it: string rules return a
token whose value is the matched text; `t_STRING_LITERAL` strips the quotes;
`t_ID` substitutes the keyword type; `t_NEWLINE` and `t_comment` count
newlines and emit nothing; the two unterminated rules report through
`_error`, which also calls `skip(1)` on top of the consumed span. -/
def applyRule (st : LexState) (r : RuleId) (n : Nat) : StepOut :=
  let text := (st.data.drop st.pos).take n
  match r with
  | .STRING_LITERAL =>
    .cont { st with pos := st.pos + n }
      (some (.tok ⟨"STRING_LITERAL", (text.drop 1).dropLast, st.lineno, st.pos⟩))
  | .ID =>
    .cont { st with pos := st.pos + n }
      (some (.tok ⟨keywordLookup text, text, st.lineno, st.pos⟩))
  | .NEWLINE =>
    .cont { st with pos := st.pos + n, lineno := st.lineno + countNL text } none
  | .comment =>
    .cont { st with pos := st.pos + n, lineno := st.lineno + countNL text } none
  | .unterminated_string =>
    .cont { st with pos := st.pos + n + 1 }
      (some (.err "Unterminated string" st.lineno (findCol st.data st.pos)))
  | .unterminated_comment =>
    .cont { st with pos := st.pos + n + 1 }
      (some (.err "Unterminated comment" st.lineno (findCol st.data st.pos)))
  | r =>
    .cont { st with pos := st.pos + n }
      (some (.tok ⟨ruleName r, text, st.lineno, st.pos⟩))

/-- One iteration of the `token()` loop (PLY `lex.py`): end of input, skip
of an ignored character (`t_ignore = " \t"`), the first matching rule of the
master regex, or `t_error` (report, then `skip(1)`). -/
def step (st : LexState) : StepOut :=
  match st.data.drop st.pos with
  | [] => .eof
  | c :: rest =>
    if c = ' ' ∨ c = '\t' then .cont { st with pos := st.pos + 1 } none
    else
      match firstMatch masterOrder (c :: rest) with
      | some (r, n) => applyRule st r n
      | none =>
        .cont { st with pos := st.pos + 1 }
          (some (.err ("Illegal character " ++ pyRepr c) st.lineno (findCol st.data st.pos)))

/-- Run the loop for at most `fuel` iterations, collecting tokens and error
reports in order.  `scan` always supplies enough fuel: every iteration
advances the cursor (proved below), so `length + 1 - pos` iterations reach
the end. -/
def scanFuel : Nat → LexState → List Event
  | 0, _ => []
  | Nat.succ fuel, st =>
    match step st with
    | .eof => []
    | .cont st' none => scanFuel fuel st'
    | .cont st' (some e) => e :: scanFuel fuel st'

/-- Final state of the loop after at most `fuel` iterations. -/
def runFuel : Nat → LexState → LexState
  | 0, st => st
  | Nat.succ fuel, st =>
    match step st with
    | .eof => st
    | .cont st' _ => runFuel fuel st'

/-- All events from a state to end of input. -/
def scanFrom (st : LexState) : List Event :=
  scanFuel (st.data.length + 1 - st.pos) st

/-- State after `input(text)` on a fresh lexer built by `build()`: cursor 0,
line 1. -/
def initState (s : List Char) : LexState :=
  ⟨s, 0, 1⟩

/-- `UCLexer.scan` (lines 217-226): load the text and drain the token
stream, observing tokens and error callbacks in order. -/
def scan (s : List Char) : List Event :=
  scanFrom (initState s)

/-- Lexer state when `scan` finishes. -/
def finalState (s : List Char) : LexState :=
  runFuel (s.length + 1) (initState s)

/-- `reset_lineno` (lines 37-39): `self.lexer.lineno = 1`. -/
def reset_lineno (st : LexState) : LexState :=
  { st with lineno := 1 }

/-- `input` (lines 41-42), delegating to PLY `Lexer.input`: installs the new
buffer and sets `lexpos = 0`; `lineno` is not touched. -/
def input (st : LexState) (text : List Char) : LexState :=
  { st with data := text, pos := 0 }

/-- `true` when iterating `step` from `st` reaches end-of-input within
`fuel` iterations. -/
def iterEof : Nat → LexState → Bool
  | 0, st =>
    match step st with
    | .eof => true
    | .cont _ _ => false
  | Nat.succ fuel, st =>
    match step st with
    | .eof => true
    | .cont st' _ => iterEof fuel st'

/-! ## Generic facts about the matchers and the engine -/

theorem alt2_cases {a b : Option Nat} {n : Nat} (h : alt2 a b = some n) :
    a = some n ∨ b = some n := by
  cases a with
  | some m => left; simpa [alt2] using h
  | none => right; simpa [alt2] using h

theorem litMatch_len {lit s : List Char} {n : Nat} (h : litMatch lit s = some n) :
    n = lit.length := by
  unfold litMatch at h
  split at h
  · exact (Option.some.inj h).symm
  · simp at h

theorem strTail_pos : ∀ {s : List Char} {n : Nat}, strTail s = some n → 1 ≤ n := by
  intro s n h
  match s with
  | [] => simp [strTail] at h
  | [c] =>
    rw [strTail] at h
    split at h
    · simp only [Option.some.injEq] at h
      omega
    · simp at h
  | c :: c2 :: rest2 =>
    rw [strTail] at h
    split at h
    · simp only [Option.some.injEq] at h
      omega
    · split at h
      · split at h
        · obtain ⟨m, -, rfl⟩ := Option.map_eq_some'.mp h
          omega
        · rcases alt2_cases h with h' | h' <;>
            (obtain ⟨m, -, rfl⟩ := Option.map_eq_some'.mp h'; omega)
      · obtain ⟨m, -, rfl⟩ := Option.map_eq_some'.mp h
        omega

theorem charTail_pos : ∀ {s : List Char} {n : Nat}, charTail s = some n → 1 ≤ n := by
  intro s n h
  match s with
  | [] => simp [charTail] at h
  | [c] =>
    rw [charTail] at h
    split at h
    · simp only [Option.some.injEq] at h
      omega
    · simp at h
  | c :: c2 :: rest2 =>
    rw [charTail] at h
    split at h
    · simp only [Option.some.injEq] at h
      omega
    · split at h
      · split at h
        · obtain ⟨m, -, rfl⟩ := Option.map_eq_some'.mp h
          omega
        · rcases alt2_cases h with h' | h' <;>
            (obtain ⟨m, -, rfl⟩ := Option.map_eq_some'.mp h'; omega)
      · split at h
        · simp at h
        · obtain ⟨m, -, rfl⟩ := Option.map_eq_some'.mp h
          omega

theorem charBody_pos : ∀ {s : List Char} {n : Nat}, charBody s = some n → 2 ≤ n := by
  intro s n h
  rw [charBody.eq_def] at h
  repeat' split at h
  all_goals first
    | exact Option.noConfusion h
    | (injection h with h'; omega)
    | (obtain ⟨m, hm, hmn⟩ := Option.map_eq_some'.mp h
       first
         | omega
         | (have hct := charTail_pos hm; omega))
    | (rcases alt2_cases h with h | h <;>
        first
          | exact Option.noConfusion h
          | (injection h with h'; omega)
          | (obtain ⟨m, hm, hmn⟩ := Option.map_eq_some'.mp h
             first
               | omega
               | (have hct := charTail_pos hm; omega)))

theorem charMatch_ge3 : ∀ {s : List Char} {n : Nat}, charMatch s = some n → 3 ≤ n := by
  intro s n h
  match s with
  | [] => simp [charMatch] at h
  | c :: rest =>
    rw [charMatch] at h
    split at h
    · obtain ⟨m, hm, rfl⟩ := Option.map_eq_some'.mp h
      have hcb := charBody_pos hm
      omega
    · simp at h

theorem strMatch_pos : ∀ {s : List Char} {n : Nat}, strMatch s = some n → 1 ≤ n := by
  intro s n h
  match s with
  | [] => simp [strMatch] at h
  | c :: rest =>
    rw [strMatch] at h
    split at h
    · obtain ⟨m, -, rfl⟩ := Option.map_eq_some'.mp h
      omega
    · simp at h

theorem idMatch_pos : ∀ {s : List Char} {n : Nat}, idMatch s = some n → 1 ≤ n := by
  intro s n h
  match s with
  | [] => simp [idMatch] at h
  | c :: rest =>
    rw [idMatch] at h
    split at h
    · simp only [Option.some.injEq] at h
      omega
    · simp at h

theorem nlMatch_pos : ∀ {s : List Char} {n : Nat}, nlMatch s = some n → 1 ≤ n := by
  intro s n h
  match s with
  | [] => simp [nlMatch] at h
  | c :: rest =>
    rw [nlMatch] at h
    split at h
    · simp only [Option.some.injEq] at h
      omega
    · simp at h

theorem intMatch_pos : ∀ {s : List Char} {n : Nat}, intMatch s = some n → 1 ≤ n := by
  intro s n h
  match s with
  | [] => simp [intMatch] at h
  | c :: rest =>
    rw [intMatch] at h
    split at h
    · simp only [Option.some.injEq] at h
      omega
    · simp at h

theorem commentMatch_pos : ∀ {s : List Char} {n : Nat}, commentMatch s = some n → 1 ≤ n := by
  intro s n h
  rw [commentMatch.eq_def] at h
  repeat' split at h
  all_goals first
    | exact Option.noConfusion h
    | (injection h with h'; omega)
    | (obtain ⟨m, hm, hmn⟩ := Option.map_eq_some'.mp h; omega)
    | (rcases alt2_cases h with h | h <;>
        first
          | exact Option.noConfusion h
          | (injection h with h'; omega)
          | (obtain ⟨m, hm, hmn⟩ := Option.map_eq_some'.mp h; omega))

theorem untermStrMatch_pos : ∀ {s : List Char} {n : Nat}, untermStrMatch s = some n → 1 ≤ n := by
  intro s n h
  match s with
  | [] => simp [untermStrMatch] at h
  | c :: rest =>
    rw [untermStrMatch] at h
    split at h
    · simp only [Option.some.injEq] at h
      omega
    · simp at h

theorem untermComMatch_pos : ∀ {s : List Char} {n : Nat}, untermComMatch s = some n → 1 ≤ n := by
  intro s n h
  rw [untermComMatch.eq_def] at h
  repeat' split at h
  all_goals first
    | exact Option.noConfusion h
    | (injection h with h'; omega)

theorem floatA_pos : ∀ {s : List Char} {n : Nat}, floatA s = some n → 1 ≤ n := by
  intro s n h
  match s with
  | [] => simp [floatA] at h
  | c :: rest =>
    rw [floatA] at h
    split at h
    · split at h
      · split at h
        · simp only [Option.some.injEq] at h
          omega
        · simp at h
      · simp at h
    · simp at h

theorem floatB_pos : ∀ {s : List Char} {n : Nat}, floatB s = some n → 1 ≤ n := by
  intro s n h
  rw [floatB.eq_def] at h
  repeat' split at h
  all_goals first
    | exact Option.noConfusion h
    | (injection h with h'; omega)

theorem floatBexp_pos : ∀ {s : List Char} {n : Nat}, floatBexp s = some n → 1 ≤ n := by
  intro s n h
  unfold floatBexp at h
  split at h
  · next m hm =>
    simp only [Option.some.injEq] at h
    have hfb := floatB_pos hm
    omega
  · simp at h

theorem floatC_pos : ∀ {s : List Char} {n : Nat}, floatC s = some n → 1 ≤ n := by
  intro s n h
  rw [floatC.eq_def] at h
  repeat' split at h
  all_goals first
    | exact Option.noConfusion h
    | (injection h with h'; omega)
    | (obtain ⟨m, hm, hmn⟩ := Option.map_eq_some'.mp h; omega)

theorem floatMatch_pos : ∀ {s : List Char} {n : Nat}, floatMatch s = some n → 1 ≤ n := by
  intro s n h
  unfold floatMatch at h
  rcases alt2_cases h with h' | h'
  · exact floatA_pos h'
  · rcases alt2_cases h' with h'' | h''
    · exact floatBexp_pos h''
    · exact floatC_pos h''

theorem ruleAt_pos : ∀ (r : RuleId) {s : List Char} {n : Nat}, ruleAt r s = some n → 1 ≤ n := by
  intro r s n h
  cases r <;> simp only [ruleAt] at h <;>
    first
      | exact strMatch_pos h
      | exact idMatch_pos h
      | exact nlMatch_pos h
      | exact commentMatch_pos h
      | exact untermStrMatch_pos h
      | exact untermComMatch_pos h
      | exact floatMatch_pos h
      | exact (by have hcm := charMatch_ge3 h; omega)
      | exact intMatch_pos h
      | (have hl := litMatch_len h; simp at hl; omega)

theorem firstMatch_pos : ∀ {l : List RuleId} {s : List Char} {r : RuleId} {n : Nat},
    firstMatch l s = some (r, n) → 1 ≤ n := by
  intro l
  induction l with
  | nil => intro s r n h; simp [firstMatch] at h
  | cons r1 rs ih =>
    intro s r n h
    rw [firstMatch] at h
    cases h1 : ruleAt r1 s with
    | some m =>
      rw [h1] at h
      simp only [Option.some.injEq, Prod.mk.injEq] at h
      obtain ⟨-, rfl⟩ := h
      exact ruleAt_pos r1 h1
    | none =>
      rw [h1] at h
      exact ih h

theorem firstMatch_sound : ∀ {l : List RuleId} {s : List Char} {r : RuleId} {n : Nat},
    firstMatch l s = some (r, n) →
    ruleAt r s = some n ∧ ∃ pre post, l = pre ++ r :: post ∧ ∀ r' ∈ pre, ruleAt r' s = none := by
  intro l
  induction l with
  | nil => intro s r n h; simp [firstMatch] at h
  | cons r1 rs ih =>
    intro s r n h
    rw [firstMatch] at h
    cases h1 : ruleAt r1 s with
    | some m =>
      rw [h1] at h
      simp only [Option.some.injEq, Prod.mk.injEq] at h
      obtain ⟨rfl, rfl⟩ := h
      exact ⟨h1, [], rs, rfl, by simp⟩
    | none =>
      rw [h1] at h
      obtain ⟨ha, pre, post, heq, hpre⟩ := ih h
      refine ⟨ha, r1 :: pre, post, by rw [heq]; rfl, ?_⟩
      intro r' hr'
      rcases List.mem_cons.mp hr' with rfl | hr'
      · exact h1
      · exact hpre r' hr'

theorem firstMatch_complete : ∀ {l : List RuleId} {s : List Char} {r : RuleId} {n : Nat},
    r ∈ l → ruleAt r s = some n → (firstMatch l s).isSome = true := by
  intro l
  induction l with
  | nil => intro s r n h; simp at h
  | cons r1 rs ih =>
    intro s r n hmem hr
    rw [firstMatch]
    cases h1 : ruleAt r1 s with
    | some m => simp
    | none =>
      rcases List.mem_cons.mp hmem with rfl | hmem
      · rw [hr] at h1; simp at h1
      · exact ih hmem hr

theorem step_nil {st : LexState} (hd : st.data.drop st.pos = []) : step st = .eof := by
  unfold step
  rw [hd]

theorem step_cons {st : LexState} {c : Char} {rest : List Char}
    (hd : st.data.drop st.pos = c :: rest) :
    step st =
      if c = ' ' ∨ c = '\t' then .cont { st with pos := st.pos + 1 } none
      else
        match firstMatch masterOrder (c :: rest) with
        | some (r, n) => applyRule st r n
        | none =>
          .cont { st with pos := st.pos + 1 }
            (some (.err ("Illegal character " ++ pyRepr c) st.lineno (findCol st.data st.pos))) := by
  unfold step
  rw [hd]

theorem applyRule_cont {st : LexState} {r : RuleId} {n : Nat} {st' : LexState} {ev : Option Event}
    (hn : 1 ≤ n) (h : applyRule st r n = .cont st' ev) :
    st'.data = st.data ∧ st.pos < st'.pos := by
  cases r <;>
    (simp only [applyRule, StepOut.cont.injEq] at h
     obtain ⟨h1, -⟩ := h
     rw [← h1]
     exact ⟨rfl, by simp; omega⟩)

theorem step_progress {st st' : LexState} {ev : Option Event}
    (h : step st = .cont st' ev) : st'.data = st.data ∧ st.pos < st'.pos := by
  cases hd : st.data.drop st.pos with
  | nil => rw [step_nil hd] at h; simp at h
  | cons c rest =>
    rw [step_cons hd] at h
    by_cases hig : c = ' ' ∨ c = '\t'
    · rw [if_pos hig] at h
      simp only [StepOut.cont.injEq] at h
      obtain ⟨h1, -⟩ := h
      rw [← h1]
      exact ⟨rfl, by simp⟩
    · rw [if_neg hig] at h
      cases hm : firstMatch masterOrder (c :: rest) with
      | none =>
        rw [hm] at h
        simp only [StepOut.cont.injEq] at h
        obtain ⟨h1, -⟩ := h
        rw [← h1]
        exact ⟨rfl, by simp⟩
      | some p =>
        obtain ⟨r, m⟩ := p
        rw [hm] at h
        exact applyRule_cont (firstMatch_pos hm) h

theorem iterEof_of_le : ∀ (fuel : Nat) (st : LexState),
    st.data.length + 1 - st.pos ≤ fuel → iterEof fuel st = true := by
  intro fuel
  induction fuel with
  | zero =>
    intro st hle
    have hpos : st.data.length ≤ st.pos := by omega
    simp only [iterEof, step_nil (List.drop_eq_nil_of_le hpos)]
  | succ fuel ih =>
    intro st hle
    simp only [iterEof]
    cases hs : step st with
    | eof => rfl
    | cont st' ev =>
      obtain ⟨hdata, hpos⟩ := step_progress hs
      apply ih
      rw [hdata]
      omega

theorem take_append_one : ∀ (a tail : List Char) (x : Char),
    (a ++ x :: tail).take (a.length + 1) = a ++ [x] := by
  intro a
  induction a with
  | nil => intro tail x; rfl
  | cons c a' ih =>
    intro tail x
    rw [List.cons_append, List.length_cons]
    rw [show a'.length + 1 + 1 = (a'.length + 1) + 1 from rfl, List.take_succ_cons, ih]
    rfl

theorem strTail_body_le : ∀ (n : Nat) (a rest : List Char), a.length ≤ n →
    strBody a = true → strTail (a ++ '"' :: rest) = some (a.length + 1) := by
  intro n
  induction n with
  | zero =>
    intro a rest hlen hb
    match a with
    | [] => cases rest with
      | nil => rfl
      | cons r rs => rfl
    | c :: a' => simp at hlen
  | succ n ih =>
    intro a rest hlen hb
    match a with
    | [] => cases rest with
      | nil => rfl
      | cons r rs => rfl
    | [c] =>
      rw [strBody] at hb
      simp only [Bool.and_eq_true, Bool.not_eq_true', decide_eq_false_iff_not] at hb
      obtain ⟨hq, hs⟩ := hb
      rw [show ([c] ++ '"' :: rest : List Char) = c :: '"' :: rest from rfl]
      rw [strTail, if_neg hq, if_neg hs]
      have hcl : strTail ('"' :: rest) = some 1 := by cases rest <;> rfl
      rw [hcl]
      rfl
    | c :: c2 :: a'' =>
      rw [strBody] at hb
      by_cases hq : c = '"'
      · rw [if_pos hq] at hb
        exact absurd hb (by simp)
      · rw [if_neg hq] at hb
        by_cases hs : c = '\\'
        · rw [if_pos hs] at hb
          by_cases hn : c2 = '\n'
          · rw [if_pos hn] at hb
            rw [show ((c :: c2 :: a'') ++ '"' :: rest : List Char) =
              c :: c2 :: (a'' ++ '"' :: rest) from rfl]
            rw [strTail, if_neg hq, if_pos hs, if_pos hn]
            have hih := ih (c2 :: a'') rest
              (by simp only [List.length_cons] at hlen ⊢; omega) hb
            rw [show (c2 :: (a'' ++ '"' :: rest) : List Char) =
              (c2 :: a'') ++ '"' :: rest from rfl, hih]
            rfl
          · rw [if_neg hn] at hb
            rw [show ((c :: c2 :: a'') ++ '"' :: rest : List Char) =
              c :: c2 :: (a'' ++ '"' :: rest) from rfl]
            rw [strTail, if_neg hq, if_pos hs, if_neg hn]
            have hih := ih a'' rest
              (by simp only [List.length_cons] at hlen; omega) hb
            rw [hih]
            rfl
        · rw [if_neg hs] at hb
          rw [show ((c :: c2 :: a'') ++ '"' :: rest : List Char) =
            c :: c2 :: (a'' ++ '"' :: rest) from rfl]
          rw [strTail, if_neg hq, if_neg hs]
          have hih := ih (c2 :: a'') rest
            (by simp only [List.length_cons] at hlen ⊢; omega) hb
          rw [show (c2 :: (a'' ++ '"' :: rest) : List Char) =
            (c2 :: a'') ++ '"' :: rest from rfl, hih]
          rfl

theorem strTail_body (a rest : List Char) (hb : strBody a = true) :
    strTail (a ++ '"' :: rest) = some (a.length + 1) :=
  strTail_body_le a.length a rest le_rfl hb

/-- At any cursor where a complete string literal starts — opening quote,
body `a`, then its first unescaped closing quote, then arbitrary further
text `rest'` (which may contain any number of further quotes or literals) —
the engine selects `t_STRING_LITERAL`, consumes exactly through that first
closing quote, and emits one STRING_LITERAL token whose value is `a`. -/
theorem stringLit_step (st : LexState) (a rest' : List Char)
    (hd : st.data.drop st.pos = '"' :: (a ++ '"' :: rest'))
    (hb : strBody a = true) :
    step st = .cont { st with pos := st.pos + (a.length + 2) }
      (some (.tok ⟨"STRING_LITERAL", a, st.lineno, st.pos⟩)) := by
  have hst := strTail_body a rest' hb
  have hm : strMatch ('"' :: (a ++ '"' :: rest')) = some (a.length + 2) := by
    rw [strMatch, if_pos rfl, hst]
    rfl
  have hfm : firstMatch masterOrder ('"' :: (a ++ '"' :: rest')) =
      some (.STRING_LITERAL, a.length + 2) := by
    simp only [masterOrder, firstMatch, ruleAt, hm]
  have hig : ¬(('"' : Char) = ' ' ∨ ('"' : Char) = '\t') := by decide
  rw [step_cons hd, if_neg hig, hfm]
  show applyRule st .STRING_LITERAL (a.length + 2) = _
  simp only [applyRule, hd]
  rw [show a.length + 2 = (a.length + 1) + 1 from rfl, List.take_succ_cons,
    take_append_one a rest' '"']
  rw [show (('"' :: (a ++ ['"']) : List Char).drop 1) = a ++ ['"'] from rfl]
  rw [List.dropLast_concat]

/-! ## Claim theorems -/

/-- C1, counterexample: the claim says that when match lengths differ, the
rule with the longest match is selected regardless of priority order.  At
cursor 0 of the buffer `"a" x` the rule `t_STRING_LITERAL` matches 3
characters and the rule `t_unterminated_string` matches 5; the lengths
differ, yet the engine selects the shorter, priority-earlier
`t_STRING_LITERAL`, not the longest match. -/
theorem C1_counterexample :
    ruleAt .STRING_LITERAL ("\"a\" x".toList) = some 3 ∧
    ruleAt .unterminated_string ("\"a\" x".toList) = some 5 ∧
    firstMatch masterOrder ("\"a\" x".toList) = some (.STRING_LITERAL, 3) ∧
    ¬firstMatch masterOrder ("\"a\" x".toList) = some (.unterminated_string, 5) := by
  decide

/-- C1, amended: rule resolution at every cursor position is pure priority
order — the selected rule is the first rule in master-regex priority order
whose pattern matches, regardless of relative match lengths (so on equal
lengths the earlier rule wins, but a longer match never overrides an
earlier shorter one); and whenever any rule matches, some rule is
selected. -/
theorem C1_theorem :
    (∀ (s : List Char) (r : RuleId) (n : Nat),
      firstMatch masterOrder s = some (r, n) →
        ruleAt r s = some n ∧
        ∃ pre post, masterOrder = pre ++ r :: post ∧ ∀ r' ∈ pre, ruleAt r' s = none) ∧
    (∀ (s : List Char) (r : RuleId) (n : Nat),
      r ∈ masterOrder → ruleAt r s = some n → (firstMatch masterOrder s).isSome = true) := by
  constructor
  · intro s r n h
    exact firstMatch_sound h
  · intro s r n hmem hr
    exact firstMatch_complete hmem hr

/-- C1, witness: the amended selection property instantiated on the buffer
`+x`, where `t_PLUS` is the selected rule. -/
theorem C1_witness :
    (ruleAt .PLUS ("+x".toList) = some 1 ∧
      ∃ pre post, masterOrder = pre ++ RuleId.PLUS :: post ∧
        ∀ r' ∈ pre, ruleAt r' ("+x".toList) = none) ∧
    (firstMatch masterOrder ("+x".toList)).isSome = true :=
  ⟨C1_theorem.1 ("+x".toList) .PLUS 1 (by decide),
   C1_theorem.2 ("+x".toList) .PLUS 1 (by decide) (by decide)⟩

/-- C2, counterexample: the claim says scanning `"/* a\nb"` advances the
line counter by 1.  The scan produces exactly the one UnterminatedComment
error, but `t_unterminated_comment` never touches `lineno`: the final line
counter is still 1, not 2. -/
theorem C2_counterexample :
    scan ("/* a\nb".toList) = [.err "Unterminated comment" 1 1] ∧
    (finalState ("/* a\nb".toList)).lineno = 1 ∧
    ¬(finalState ("/* a\nb".toList)).lineno = 2 := by
  decide

/-- C2, amended: scanning `"/* a\nb"` produces exactly one
UnterminatedComment error through the callback (reported at line 1, column
1, the opening delimiter), leaves the line counter unchanged at 1 (the
unterminated-comment rule does not count embedded newlines), and the scan
terminates with no further tokens. -/
theorem C2_theorem :
    scan ("/* a\nb".toList) = [.err "Unterminated comment" 1 1] ∧
    (finalState ("/* a\nb".toList)).lineno = 1 := by
  decide

/-- C3, counterexample: the claim says character-constant tokens store
their value with the surrounding quotes stripped.  Scanning `'a'` produces
a CHAR_CONST token whose value is the full matched text `'a'` — quotes
included — because `t_CHAR_CONST` is a plain string rule with no stripping
action, unlike `t_STRING_LITERAL`. -/
theorem C3_counterexample :
    scan ("'a'".toList) = [.tok ⟨"CHAR_CONST", "'a'".toList, 1, 0⟩] ∧
    ¬("'a'".toList : List Char) = "a".toList := by
  decide

/-- C3, amended: every character-constant match has at least one (possibly
escaped) character between the delimiting quotes (total length at least 3);
string-literal tokens may be empty and may span multiple lines, and store
their value with the surrounding quotes stripped and escape sequences left
un-decoded; character-constant tokens store the raw matched text with the
quotes still included and escape sequences left un-decoded. -/
theorem C3_theorem :
    (∀ (s : List Char) (n : Nat), charMatch s = some n → 3 ≤ n) ∧
    scan ("\"\"".toList) = [.tok ⟨"STRING_LITERAL", [], 1, 0⟩] ∧
    scan ("\"a\nb\"".toList) = [.tok ⟨"STRING_LITERAL", "a\nb".toList, 1, 0⟩] ∧
    scan ("\"a\\nb\"".toList) = [.tok ⟨"STRING_LITERAL", ['a', '\\', 'n', 'b'], 1, 0⟩] ∧
    scan ("'\\n'".toList) = [.tok ⟨"CHAR_CONST", ['\'', '\\', 'n', '\''], 1, 0⟩] := by
  refine ⟨fun s n h => charMatch_ge3 h, ?_, ?_, ?_, ?_⟩ <;> decide

/-- C3, witness: the character-constant length bound instantiated at the
concrete match `'a'`. -/
theorem C3_witness : charMatch ("'a'".toList) = some 3 ∧ 3 ≤ 3 :=
  ⟨by decide, C3_theorem.1 ("'a'".toList) 3 (by decide)⟩

/-- C4: the claim's correct parts hold — `123` and `1_234` scan as single
IntegerConstants, `12.34`, `1.` and `.5` as single FloatConstants, and a
bare `.` matches neither numeric rule — but `1e10` and `1.5e-3` do NOT scan
as single FloatConstants: the float pattern's optional exponent group
attaches only to the `.456`-style alternative and the exponent-only
alternative demands exactly two digit units on each side of the `e`, so
`1e10` scans as IntegerConstant `1` + Identifier `e10` and `1.5e-3` as
FloatConstant `1.5` + Identifier `e` + `-` + IntegerConstant `3`.  The
pattern's own comment "can be 1.23e-2" is likewise violated: `1.23e-2`
splits the same way. -/
theorem C4_theorem :
    scan ("123".toList) = [.tok ⟨"INT_CONST", "123".toList, 1, 0⟩] ∧
    scan ("1_234".toList) = [.tok ⟨"INT_CONST", "1_234".toList, 1, 0⟩] ∧
    scan ("12.34".toList) = [.tok ⟨"FLOAT_CONST", "12.34".toList, 1, 0⟩] ∧
    scan ("1.".toList) = [.tok ⟨"FLOAT_CONST", "1.".toList, 1, 0⟩] ∧
    scan (".5".toList) = [.tok ⟨"FLOAT_CONST", ".5".toList, 1, 0⟩] ∧
    floatMatch (".".toList) = none ∧
    intMatch (".".toList) = none ∧
    scan ("1e10".toList) =
      [.tok ⟨"INT_CONST", "1".toList, 1, 0⟩, .tok ⟨"ID", "e10".toList, 1, 1⟩] ∧
    scan ("1.5e-3".toList) =
      [.tok ⟨"FLOAT_CONST", "1.5".toList, 1, 0⟩, .tok ⟨"ID", "e".toList, 1, 3⟩,
       .tok ⟨"MINUS", "-".toList, 1, 4⟩, .tok ⟨"INT_CONST", "3".toList, 1, 5⟩] ∧
    scan ("1.23e-2".toList) =
      [.tok ⟨"FLOAT_CONST", "1.23".toList, 1, 0⟩, .tok ⟨"ID", "e".toList, 1, 4⟩,
       .tok ⟨"MINUS", "-".toList, 1, 5⟩, .tok ⟨"INT_CONST", "2".toList, 1, 6⟩] := by
  decide

/-- C5: every reserved spelling scans to its keyword token type (never
`ID`); and on any suffix where the identifier rule matches a text whose
keyword lookup fails, the engine emits an `ID` token whose value is the
matched text verbatim. -/
theorem C5_theorem :
    (∀ p ∈ keyword_map, scan p.1 = [.tok ⟨p.2, p.1, 1, 0⟩]) ∧
    (∀ (st : LexState) (c : Char) (rest : List Char) (n : Nat),
      st.data.drop st.pos = c :: rest →
      idMatch (c :: rest) = some n →
      List.lookup ((c :: rest).take n) keyword_map = none →
      step st = .cont { st with pos := st.pos + n }
        (some (.tok ⟨"ID", (c :: rest).take n, st.lineno, st.pos⟩))) := by
  constructor
  · decide
  · intro st c rest n hd hid hkw
    have hw : (isWordChar c && !c.isDigit) = true := by
      rw [idMatch] at hid
      by_cases hb : (isWordChar c && !c.isDigit) = true
      · exact hb
      · rw [if_neg hb] at hid
        exact Option.noConfusion hid
    have hsp : ¬(c = ' ' ∨ c = '\t') := by
      rintro (rfl | rfl) <;> simp [isWordChar] at hw
    have hq : ¬(c = '"') := by
      rintro rfl
      simp [isWordChar] at hw
    have hstr : strMatch (c :: rest) = none := by
      rw [strMatch]
      exact if_neg hq
    have hfm : firstMatch masterOrder (c :: rest) = some (.ID, n) := by
      simp only [masterOrder, firstMatch, ruleAt, hstr, hid]
    rw [step_cons hd, if_neg hsp, hfm]
    simp only [applyRule, hd, keywordLookup, hkw, Option.getD_none]

/-- C5, witness: the keyword case at `while` and the identifier case at the
buffer `x1;`, where the identifier rule matches `x1`. -/
theorem C5_witness :
    scan ("while".toList) = [.tok ⟨"WHILE", "while".toList, 1, 0⟩] ∧
    step (initState ("x1;".toList)) =
      .cont ⟨"x1;".toList, 2, 1⟩ (some (.tok ⟨"ID", "x1".toList, 1, 0⟩)) := by
  constructor
  · exact C5_theorem.1 ("while".toList, "WHILE") (by decide)
  · exact C5_theorem.2 (initState ("x1;".toList)) 'x' ("1;".toList) 2 (by decide) (by decide)
      (by decide)

/-- C6: when no rule matches at the cursor (and the character is not
ignored whitespace), the engine reports an illegal-character error through
the callback at the current line and column, advances the cursor by exactly
one character, emits no token for it, and resumes; in particular
`"int @x;"` yields the `int` keyword token, one illegal-character error at
the `@` column (column 5), then `Identifier "x"`, then `";"`. -/
theorem C6_theorem :
    (∀ (st : LexState) (c : Char) (rest : List Char),
      st.data.drop st.pos = c :: rest →
      ¬(c = ' ' ∨ c = '\t') →
      firstMatch masterOrder (c :: rest) = none →
      step st = .cont { st with pos := st.pos + 1 }
        (some (.err ("Illegal character " ++ pyRepr c) st.lineno (findCol st.data st.pos)))) ∧
    scan ("int @x;".toList) =
      [.tok ⟨"INT", "int".toList, 1, 0⟩,
       .err "Illegal character '@'" 1 5,
       .tok ⟨"ID", "x".toList, 1, 5⟩,
       .tok ⟨"SEMI", ";".toList, 1, 6⟩] := by
  constructor
  · intro st c rest hd hig hfm
    rw [step_cons hd, if_neg hig, hfm]
  · decide

/-- C6, witness: the illegal-character step instantiated on the
single-character buffer `@`. -/
theorem C6_witness :
    step (initState ("@".toList)) =
      .cont ⟨"@".toList, 1, 1⟩ (some (.err ("Illegal character " ++ pyRepr '@') 1 1)) := by
  exact C6_theorem.1 (initState ("@".toList)) '@' [] (by decide) (by decide) (by decide)

/-- C7: scanning `"abc` (opening quote, no closing quote before end of
input) produces exactly one UnterminatedString error at the line and column
of the opening quote and no StringLiteral token; likewise when the opening
quote sits at line 2 column 2 the error is reported there. -/
theorem C7_theorem :
    scan ("\"abc".toList) = [.err "Unterminated string" 1 1] ∧
    scan ("x\n \"abc".toList) =
      [.tok ⟨"ID", "x".toList, 1, 0⟩, .err "Unterminated string" 2 2] := by
  decide

/-- C8: `reset_lineno` sets the line counter to 1 and leaves the buffer and
the cursor unchanged; `input text` installs the new buffer and resets the
cursor to 0 while leaving the line counter unchanged — for every scanner
state and every text. -/
theorem C8_theorem :
    ∀ (st : LexState) (text : List Char),
      (reset_lineno st).lineno = 1 ∧
      (reset_lineno st).data = st.data ∧
      (reset_lineno st).pos = st.pos ∧
      (UCLexer.input st text).data = text ∧
      (UCLexer.input st text).pos = 0 ∧
      (UCLexer.input st text).lineno = st.lineno := by
  intro st text
  exact ⟨rfl, rfl, rfl, rfl, rfl, rfl⟩

/-- C9: the tokenization loop always makes progress and terminates — every
non-eof iteration of the loop (token, skipped span, or any error path)
strictly advances the cursor and preserves the buffer, and from any state
the loop reaches the end-of-input sentinel within `length + 1 - pos`
iterations, so the scan never hangs and never aborts on malformed input. -/
theorem C9_theorem :
    (∀ (st st' : LexState) (ev : Option Event),
      step st = .cont st' ev → st'.data = st.data ∧ st.pos < st'.pos) ∧
    (∀ st : LexState, iterEof (st.data.length + 1 - st.pos) st = true) := by
  constructor
  · intro st st' ev h
    exact step_progress h
  · intro st
    exact iterEof_of_le _ st le_rfl

/-- C9, witness: one progress step on the buffer `a`. -/
theorem C9_witness :
    step (initState ("a".toList)) =
      .cont ⟨"a".toList, 1, 1⟩ (some (.tok ⟨"ID", "a".toList, 1, 0⟩)) ∧
    ((⟨"a".toList, 1, 1⟩ : LexState).data = (initState ("a".toList)).data ∧
      (initState ("a".toList)).pos < (⟨"a".toList, 1, 1⟩ : LexState).pos) := by
  have hs : step (initState ("a".toList)) =
      .cont ⟨"a".toList, 1, 1⟩ (some (.tok ⟨"ID", "a".toList, 1, 0⟩)) := by decide
  exact ⟨hs, C9_theorem.1 _ _ _ hs⟩

/-- C10: string-literal matching is non-greedy, universally.  First
conjunct: at every cursor of every buffer where a complete string literal
starts — opening quote, body `a` (a `strBody`: quotes inside escaped, no
trailing lone backslash), then its first unescaped closing quote, then
arbitrary text `rest'`, which may contain any number of further quotes and
literals — the scanner emits one StringLiteral token with value exactly
`a`, ending at that first unescaped closing quote, never spanning into
`rest'`.  Second conjunct, the claim's two-literal shape: for every input
holding two complete string literals `a` and `b` separated by text `sep`,
the scanner emits a separate StringLiteral token for each literal (the
first at the cursor of the first opening quote — not one token spanning
from there to the last closing quote — and the second whenever the cursor
reaches the second opening quote), each ending at its own first unescaped
closing quote.  Third and fourth: the concrete instances `"a" "b"` and
`"ab" x "cd"`. -/
theorem C10_theorem :
    (∀ (st : LexState) (a rest' : List Char),
      st.data.drop st.pos = '"' :: (a ++ '"' :: rest') →
      strBody a = true →
      step st = .cont { st with pos := st.pos + (a.length + 2) }
        (some (.tok ⟨"STRING_LITERAL", a, st.lineno, st.pos⟩))) ∧
    (∀ (st st' : LexState) (a sep b tail : List Char),
      st.data.drop st.pos = '"' :: (a ++ '"' :: (sep ++ '"' :: (b ++ '"' :: tail))) →
      st'.data.drop st'.pos = '"' :: (b ++ '"' :: tail) →
      strBody a = true → strBody b = true →
      step st = .cont { st with pos := st.pos + (a.length + 2) }
        (some (.tok ⟨"STRING_LITERAL", a, st.lineno, st.pos⟩)) ∧
      step st' = .cont { st' with pos := st'.pos + (b.length + 2) }
        (some (.tok ⟨"STRING_LITERAL", b, st'.lineno, st'.pos⟩))) ∧
    scan ("\"a\" \"b\"".toList) =
      [.tok ⟨"STRING_LITERAL", "a".toList, 1, 0⟩,
       .tok ⟨"STRING_LITERAL", "b".toList, 1, 4⟩] ∧
    scan ("\"ab\" x \"cd\"".toList) =
      [.tok ⟨"STRING_LITERAL", "ab".toList, 1, 0⟩,
       .tok ⟨"ID", "x".toList, 1, 5⟩,
       .tok ⟨"STRING_LITERAL", "cd".toList, 1, 7⟩] := by
  refine ⟨fun st a rest' hd hb => stringLit_step st a rest' hd hb, ?_, by decide, by decide⟩
  intro st st' a sep b tail hd hd' ha hb
  exact ⟨stringLit_step st a (sep ++ '"' :: (b ++ '"' :: tail)) hd ha,
    stringLit_step st' b tail hd' hb⟩

/-- C10, witness: the two-literal property instantiated on the buffer
`"a" "b"` with the cursor at each of the two opening quotes. -/
theorem C10_witness :
    step (initState ("\"a\" \"b\"".toList)) =
      .cont ⟨"\"a\" \"b\"".toList, 3, 1⟩
        (some (.tok ⟨"STRING_LITERAL", "a".toList, 1, 0⟩)) ∧
    step (⟨"\"a\" \"b\"".toList, 4, 1⟩ : LexState) =
      .cont ⟨"\"a\" \"b\"".toList, 7, 1⟩
        (some (.tok ⟨"STRING_LITERAL", "b".toList, 1, 4⟩)) := by
  have h := C10_theorem.2.1 (initState ("\"a\" \"b\"".toList))
    (⟨"\"a\" \"b\"".toList, 4, 1⟩ : LexState) ("a".toList) ([' ']) ("b".toList) []
    (by decide) (by decide) (by decide) (by decide)
  exact h

end UCLexer
